import Mathlib

/-!
Verification development for the image annotation backend (`app.py`).

The development shallowly embeds the parts of the program the claims are
about: the base64 encoding layer (`base64.b64encode` / `base64.b64decode`),
the Mongo-backed annotation store (`find_one` / `insert_one` / `delete_one` /
`update_one` on the `images` collection, modelled as a list of records in
insertion order with first-match query semantics), the request handlers
(`upload_image`, `delete_image`, `get_image`, `get_all`, `edit_annotations`,
`get_predictions`), and the detection-result filtering pipeline inside
`get_predictions`.  The external detector (torch hub yolov5) and `cv2.imdecode`
are opaque collaborators and are modelled as parameters.
-/

/-! ## Encoding layer: base64 (`base64.b64encode` / `base64.b64decode`) -/

/-- A byte, as in a Python `bytes` element. -/
abbrev Byte := Fin 256

/-- One symbol of a base64 text: a sextet character or the `'='` padding. -/
inductive B64Sym where
  | s (v : Fin 64)
  | pad
deriving DecidableEq

/-- The standard base64 alphabet used by `base64.b64encode`. -/
def b64alphabet : List Char :=
  "ABCDEFGHIJKLMNOPQRSTUVWXYZabcdefghijklmnopqrstuvwxyz0123456789+/".data

/-- Character of a sextet value. -/
def sextetChar (n : Fin 64) : Char := b64alphabet.getD n.val 'A'

/-- Sextet value of a character, `none` when the character is not in the
alphabet. -/
def charSextet (c : Char) : Option (Fin 64) :=
  match b64alphabet.findIdx? (fun x => x = c) with
  | some i => if hi : i < 64 then some ⟨i, hi⟩ else none
  | none => none

/-- Byte groups to sextet/padding symbols, as `binascii.b2a_base64` groups
input bytes three at a time, emitting four symbols per group and padding the
final partial group with `'='`. -/
def encSyms : List Byte → List B64Sym
  | a :: b :: c :: rest =>
      B64Sym.s ⟨a.val / 4, by have := a.isLt; omega⟩ ::
      B64Sym.s ⟨a.val % 4 * 16 + b.val / 16, by have := a.isLt; have := b.isLt; omega⟩ ::
      B64Sym.s ⟨b.val % 16 * 4 + c.val / 64, by have := b.isLt; have := c.isLt; omega⟩ ::
      B64Sym.s ⟨c.val % 64, by have := c.isLt; omega⟩ :: encSyms rest
  | [a, b] =>
      [B64Sym.s ⟨a.val / 4, by have := a.isLt; omega⟩,
       B64Sym.s ⟨a.val % 4 * 16 + b.val / 16, by have := a.isLt; have := b.isLt; omega⟩,
       B64Sym.s ⟨b.val % 16 * 4, by have := b.isLt; omega⟩,
       B64Sym.pad]
  | [a] =>
      [B64Sym.s ⟨a.val / 4, by have := a.isLt; omega⟩,
       B64Sym.s ⟨a.val % 4 * 16, by have := a.isLt; omega⟩,
       B64Sym.pad, B64Sym.pad]
  | [] => []

/-- Sextet/padding symbols back to bytes, four symbols at a time; the two
padded final-group shapes produce one or two bytes.  `none` on shapes
`base64.b64decode` rejects. -/
def decSyms : List B64Sym → Option (List Byte)
  | [] => some []
  | [B64Sym.s a, B64Sym.s b, B64Sym.pad, B64Sym.pad] =>
      some [⟨a.val * 4 + b.val / 16, by have := a.isLt; have := b.isLt; omega⟩]
  | [B64Sym.s a, B64Sym.s b, B64Sym.s c, B64Sym.pad] =>
      some [⟨a.val * 4 + b.val / 16, by have := a.isLt; have := b.isLt; omega⟩,
            ⟨b.val % 16 * 16 + c.val / 4, by have := b.isLt; have := c.isLt; omega⟩]
  | B64Sym.s a :: B64Sym.s b :: B64Sym.s c :: B64Sym.s d :: rest =>
      (decSyms rest).map (fun tl =>
        ⟨a.val * 4 + b.val / 16, by have := a.isLt; have := b.isLt; omega⟩ ::
        ⟨b.val % 16 * 16 + c.val / 4, by have := b.isLt; have := c.isLt; omega⟩ ::
        ⟨c.val % 4 * 64 + d.val, by have := c.isLt; have := d.isLt; omega⟩ :: tl)
  | _ => none

/-- Character of a symbol. -/
def symChar : B64Sym → Char
  | B64Sym.s v => sextetChar v
  | B64Sym.pad => '='

/-- Symbol of a character, `none` for characters outside the alphabet. -/
def charSym (c : Char) : Option B64Sym :=
  if c = '=' then some B64Sym.pad else (charSextet c).map B64Sym.s

/-- Read every character of a base64 text as a symbol. -/
def decodeChars : List Char → Option (List B64Sym)
  | [] => some []
  | c :: cs =>
      match charSym c, decodeChars cs with
      | some y, some ys => some (y :: ys)
      | _, _ => none

/-- `base64.b64encode`: bytes to base64 text. -/
def b64encode (l : List Byte) : List Char := (encSyms l).map symChar

/-- `base64.b64decode`: base64 text to bytes, `none` where the Python
function raises `binascii.Error`. -/
def b64decode (cs : List Char) : Option (List Byte) :=
  match decodeChars cs with
  | some syms => decSyms syms
  | none => none


/-! ## Annotation store

Mongo's `images` collection is modelled as a list of records in insertion
order.  `find_one` / `delete_one` / `update_one` act on the first record whose
`filename` field matches, which is the natural-order scan the driver performs.
The `image` field holds the base64 text produced at upload (the code stores
`base64.b64encode(image_data)` and reads it back with `.decode('utf-8')`,
which is the identity on the base64 characters). -/

structure Record where
  filename : String
  image : List Char
  annotations : Option String
deriving DecidableEq

abbrev Store := List Record

/-- `collection.find_one({'filename': fn})`: first record with that filename. -/
def findOne : Store → String → Option Record
  | [], _ => none
  | r :: rs, fn => if r.filename = fn then some r else findOne rs fn

/-- The deletion performed by `collection.delete_one({'filename': fn})`:
remove the first matching record. -/
def deleteFirst : Store → String → Store
  | [], _ => []
  | r :: rs, fn => if r.filename = fn then rs else r :: deleteFirst rs fn

/-- The update performed by
`collection.update_one({'filename': fn}, {'$set': {'annotations': a}})`:
replace the annotations of the first matching record. -/
def setAnnFirst : Store → String → Option String → Store
  | [], _, _ => []
  | r :: rs, fn, a =>
      if r.filename = fn then { r with annotations := a } :: rs
      else r :: setAnnFirst rs fn a

/-! ## Request handlers -/

/-- `allowed_file`: `'.' in filename and filename.rsplit('.', 1)[1].lower()
in app.config['ALLOWED_EXTENSIONS']`. -/
def allowedExtensions : List (List Char) :=
  ["png".data, "jpg".data, "jpeg".data, "gif".data]

/-- `filename.rsplit('.', 1)[1]` when a dot is present: the characters after
the last dot. -/
def afterLastDot (l : List Char) : List Char :=
  (l.reverse.takeWhile (fun c => decide (c ≠ '.'))).reverse

def allowed_file (fn : String) : Bool :=
  decide ('.' ∈ fn.data) &&
    decide ((afterLastDot fn.data).map Char.toLower ∈ allowedExtensions)

/-- Truthiness of the `FileStorage` object in `if file and allowed_file(...)`:
Werkzeug's `FileStorage.__bool__` is `bool(self.filename)`. -/
def fileTruthy (fn : String) : Bool := decide (fn ≠ "")

inductive UploadResult where
  /-- `'image' not in request.files` → 400 "Image not in request". -/
  | noFile
  /-- file falsy or extension not allowed → 400 "Invalid request". -/
  | invalid
  /-- duplicate filename → 400 "File already exists". -/
  | conflict
  /-- payload length not `< 16777216` → 400 "File too big". -/
  | tooBig
  /-- 200 "File uploaded successfully". -/
  | uploaded
deriving DecidableEq

/-- `upload_image` (POST /upload-image).  `hasFile` is `'image' in
request.files`; `fn` the submitted filename; `data` the bytes `file.read()`
returns; `ann` the `annotations` form field (`None` when absent). -/
def upload_image (hasFile : Bool) (s : Store) (fn : String) (data : List Byte)
    (ann : Option String) : UploadResult × Store :=
  if hasFile = false then (UploadResult.noFile, s)
  else if fileTruthy fn && allowed_file fn then
    match findOne s fn with
    | some _ => (UploadResult.conflict, s)
    | none =>
        if data.length < 16777216 then
          (UploadResult.uploaded, s ++ [⟨fn, b64encode data, ann⟩])
        else (UploadResult.tooBig, s)
  else (UploadResult.invalid, s)

inductive DeleteResult where
  | ok
  | notFound
deriving DecidableEq

/-- `delete_image` (DELETE /delete-image/&lt;filename&gt;): `delete_one`, then 200
when `deleted_count == 1`, else 404. -/
def delete_image (s : Store) (fn : String) : DeleteResult × Store :=
  if (findOne s fn).isSome then (DeleteResult.ok, deleteFirst s fn)
  else (DeleteResult.notFound, deleteFirst s fn)

inductive GetResult where
  /-- `db_entry['image']` raised `TypeError` on `None`: the lookup found
  nothing and the handler crashes before its own not-found branch. -/
  | crash
  | ok (filename : String) (annotations : Option String) (image : List Char)
deriving DecidableEq

/-- `get_image` (GET /get-image/&lt;filename&gt;).  The code subscripts
`db_entry['image']` *before* testing `if db_entry:`, so an absent filename
raises instead of reaching the 404 branch; a found record (a non-empty dict,
hence truthy) always takes the 200 branch. -/
def get_image (s : Store) (fn : String) : GetResult × Store :=
  match findOne s fn with
  | none => (GetResult.crash, s)
  | some r => (GetResult.ok r.filename r.annotations r.image, s)

/-- `get_all` (GET /get-all): scans every record and renders each image field
as its text form (`doc['image'].decode('utf-8')`, the identity in this
model); no write is issued. -/
def get_all (s : Store) : List Record × Store := (s, s)

inductive EditResult where
  | ok
  | notFound
deriving DecidableEq

/-- `edit_annotations` (PUT /edit/&lt;filename&gt;): `update_one` with `$set`,
then 200 exactly when `modified_count == 1`.  Mongo reports
`modified_count == 0` both when no record matched and when the matched
record already carried the new value, and the handler returns 404 in both
cases (its message even says "File not found or annotations not updated"). -/
def edit_annotations (s : Store) (fn : String) (newAnn : Option String) :
    EditResult × Store :=
  match findOne s fn with
  | none => (EditResult.notFound, s)
  | some r =>
      if r.annotations = newAnn then (EditResult.notFound, setAnnFirst s fn newAnn)
      else (EditResult.ok, setAnnFirst s fn newAnn)

/-! ## Detection pipeline (`get_predictions`)

The decoded image and the yolov5 model are external collaborators; a
`Detector` packages `cv2.imdecode` (`none` where OpenCV returns `None`), the
model call `model(img)` returning `result.pred` as a list of detection
groups, and the vocabulary `result.names`.  One prediction row carries
`(x1, y1, x2, y2, confidence, classIndex)`; scores are modelled as rationals,
which preserves every comparison the filter performs. -/

/-- The 2-D pixel grid `cv2.imdecode` produces. -/
abbrev Image := List (List Nat)

structure PredRow where
  x1 : ℚ
  y1 : ℚ
  x2 : ℚ
  y2 : ℚ
  conf : ℚ
  cls : ℚ
deriving DecidableEq

structure Detector where
  imdecode : List Byte → Option Image
  run : Image → List (List PredRow)
  names : Int → String

structure Ann where
  label : String
  confidence : ℚ
  bbox : List ℚ
deriving DecidableEq

/-- Tensor `.int()`: truncation toward zero. -/
def truncInt (q : ℚ) : Int := Int.sign q.num * (q.num.natAbs / q.den : Nat)

/-- Boolean-mask indexing `t[mask]` on an equal-length tensor. -/
def applyMask {α : Type} : List Bool → List α → List α
  | [], _ => []
  | _, [] => []
  | b :: ms, x :: xs => if b then x :: applyMask ms xs else applyMask ms xs

/-- The annotation built for one surviving row: label from `result.names`,
confidence, and the box as `[x1, y1, x2, y2]`. -/
def mkAnn (names : Int → String) (p : PredRow) : Ann :=
  ⟨names (truncInt p.cls), p.conf, [p.x1, p.y1, p.x2, p.y2]⟩

/-- The per-group body of the `for pred in result.pred` loop: split the rows
into label/score/box columns, mask them with `scores > 0.5`, and zip the
filtered columns back into annotation dicts. -/
def processGroup (names : Int → String) (g : List PredRow) : List Ann :=
  let labels := g.map (fun p => truncInt p.cls)
  let scores := g.map (fun p => p.conf)
  let boxes := g.map (fun p => ([p.x1, p.y1, p.x2, p.y2] : List ℚ))
  let mask := scores.map (fun sc => decide ((1 / 2 : ℚ) < sc))
  let fl := applyMask mask labels
  let fs := applyMask mask scores
  let fb := applyMask mask boxes
  (fl.zip (fs.zip fb)).map (fun lsb => ⟨names lsb.1, lsb.2.1, lsb.2.2⟩)

inductive PredResult where
  /-- An uncaught exception: subscripting `None`, a `binascii.Error`, or the
  model applied to the `None` that `cv2.imdecode` returns on undecodable
  bytes. -/
  | crash
  /-- 404 "File not found". -/
  | notFound
  | ok (preds : List (List Ann))
deriving DecidableEq

/-- `get_predictions` (GET /get-predictions/&lt;filename&gt;).  The code runs
`db_entry['image']` and `base64.b64decode` *before* the
`if not db_entry or not image_bytes` guard, so an absent filename raises; an
empty byte string is falsy and takes the 404 branch; bytes `cv2.imdecode`
cannot decode leave `img = None` and the subsequent `model(img)` raises. -/
def get_predictions (det : Detector) (s : Store) (fn : String) :
    PredResult × Store :=
  match findOne s fn with
  | none => (PredResult.crash, s)
  | some r =>
      match b64decode r.image with
      | none => (PredResult.crash, s)
      | some bytes =>
          if bytes = [] then (PredResult.notFound, s)
          else
            match det.imdecode bytes with
            | none => (PredResult.crash, s)
            | some img =>
                (PredResult.ok ((det.run img).map (processGroup det.names)), s)

/-! ## Sequences of operations -/

/-- One client request, as seen by the store. -/
inductive Op where
  | upload (fn : String) (data : List Byte) (ann : Option String)
  | delete (fn : String)
  | edit (fn : String) (ann : Option String)
  | fetch (fn : String)
  | fetchAll
  | predict (fn : String)

/-- The store after serving one request. -/
def step (det : Detector) (s : Store) : Op → Store
  | Op.upload fn d a => (upload_image true s fn d a).2
  | Op.delete fn => (delete_image s fn).2
  | Op.edit fn a => (edit_annotations s fn a).2
  | Op.fetch fn => (get_image s fn).2
  | Op.fetchAll => (get_all s).2
  | Op.predict fn => (get_predictions det s fn).2

/-- The store after serving a sequence of requests starting from the empty
collection. -/
def run (det : Detector) (ops : List Op) : Store := ops.foldl (step det) []

def keys (s : Store) : List String := s.map Record.filename

def keysNodup (s : Store) : Prop := (keys s).Nodup

instance (s : Store) : Decidable (keysNodup s) := by
  unfold keysNodup; infer_instance

/-- Number of live records carrying a given filename. -/
def countFn (s : Store) (fn : String) : Nat :=
  s.countP (fun r => decide (r.filename = fn))

/-- A detector whose decoder rejects every byte string and that finds nothing;
used to evaluate the handlers at concrete inputs. -/
def trivialDetector : Detector := ⟨fun _ => none, fun _ => [], fun _ => ""⟩

/-! ## Base64 round-trip -/

theorem decSyms_encSyms (l : List Byte) : decSyms (encSyms l) = some l := by
  induction l using encSyms.induct with
  | case1 a b c rest ih =>
      have ha := a.isLt; have hb := b.isLt; have hc := c.isLt
      simp only [encSyms, decSyms]
      rw [ih]
      simp only [Option.map_some', Option.some.injEq, List.cons.injEq, Fin.ext_iff,
        and_true]
      omega
  | case2 a b =>
      have ha := a.isLt; have hb := b.isLt
      simp only [encSyms, decSyms, Option.some.injEq, List.cons.injEq, Fin.ext_iff,
        and_true]
      omega
  | case3 a =>
      have ha := a.isLt
      simp only [encSyms, decSyms, Option.some.injEq, List.cons.injEq, Fin.ext_iff,
        and_true]
      omega
  | case4 => rfl

theorem charSym_symChar_s : ∀ v : Fin 64, charSym (symChar (B64Sym.s v)) = some (B64Sym.s v) := by
  decide

theorem charSym_symChar (y : B64Sym) : charSym (symChar y) = some y := by
  cases y with
  | s v => exact charSym_symChar_s v
  | pad => rfl

theorem decodeChars_map (l : List B64Sym) : decodeChars (l.map symChar) = some l := by
  induction l with
  | nil => rfl
  | cons y ys ih => simp only [List.map_cons, decodeChars, charSym_symChar, ih]

/-- The encoding applied at upload is exactly inverted by the decoding applied
at prediction time: base64 is lossless on every byte sequence. -/
theorem b64_roundtrip (B : List Byte) : b64decode (b64encode B) = some B := by
  unfold b64decode b64encode
  rw [decodeChars_map]
  exact decSyms_encSyms B

/-! ## Store lemmas -/

theorem findOne_eq_none_iff (s : Store) (fn : String) :
    findOne s fn = none ↔ ∀ r ∈ s, r.filename ≠ fn := by
  induction s with
  | nil => simp [findOne]
  | cons r rs ih =>
      by_cases h : r.filename = fn
      · simp [findOne, h]
      · simp [findOne, h, ih]

theorem findOne_append_none (s l : Store) (fn : String)
    (h : findOne s fn = none) : findOne (s ++ l) fn = findOne l fn := by
  induction s with
  | nil => rfl
  | cons r rs ih =>
      by_cases hr : r.filename = fn
      · simp [findOne, hr] at h
      · simp only [List.cons_append]
        simp [findOne, hr] at h ⊢
        exact ih h

theorem deleteFirst_of_none (s : Store) (fn : String)
    (h : findOne s fn = none) : deleteFirst s fn = s := by
  induction s with
  | nil => rfl
  | cons r rs ih =>
      by_cases hr : r.filename = fn
      · simp [findOne, hr] at h
      · simp only [findOne, hr, if_false] at h
        simp [deleteFirst, hr, ih h]

theorem deleteFirst_sublist (s : Store) (fn : String) :
    (deleteFirst s fn).Sublist s := by
  induction s with
  | nil => simp [deleteFirst]
  | cons r rs ih =>
      by_cases hr : r.filename = fn
      · simp only [deleteFirst, hr, if_true]
        exact (List.Sublist.refl rs).cons r
      · simp only [deleteFirst, hr, if_false]
        exact ih.cons₂ r

theorem deleteFirst_length (s : Store) (fn : String) (r : Record)
    (h : findOne s fn = some r) : (deleteFirst s fn).length + 1 = s.length := by
  induction s with
  | nil => simp [findOne] at h
  | cons x xs ih =>
      by_cases hx : x.filename = fn
      · simp [deleteFirst, hx]
      · simp only [findOne, hx, if_false] at h
        simp [deleteFirst, hx, ih h]

theorem keys_setAnnFirst (s : Store) (fn : String) (a : Option String) :
    keys (setAnnFirst s fn a) = keys s := by
  induction s with
  | nil => rfl
  | cons r rs ih =>
      by_cases hr : r.filename = fn
      · simp [setAnnFirst, hr, keys]
      · simp only [setAnnFirst, hr, if_false]
        simp [keys] at ih ⊢
        exact ih

theorem findOne_setAnnFirst (s : Store) (fn : String) (a : Option String) :
    findOne (setAnnFirst s fn a) fn =
      (findOne s fn).map (fun r => { r with annotations := a }) := by
  induction s with
  | nil => rfl
  | cons r rs ih =>
      by_cases hr : r.filename = fn
      · simp [setAnnFirst, findOne, hr]
      · simp only [setAnnFirst, hr, if_false]
        simp only [findOne, hr, if_false]
        exact ih

theorem setAnnFirst_self (s : Store) (fn : String) (r : Record)
    (h : findOne s fn = some r) : setAnnFirst s fn r.annotations = s := by
  induction s with
  | nil => simp [findOne] at h
  | cons x xs ih =>
      by_cases hx : x.filename = fn
      · simp only [findOne, hx, if_true, Option.some.injEq] at h
        subst h
        simp only [setAnnFirst]
        rw [if_pos hx]
      · simp only [findOne, hx, if_false] at h
        simp [setAnnFirst, hx, ih h]

theorem findOne_deleteFirst_of_nodup (s : Store) (fn : String)
    (h : keysNodup s) : findOne (deleteFirst s fn) fn = none := by
  induction s with
  | nil => rfl
  | cons r rs ih =>
      simp only [keysNodup, keys, List.map_cons, List.nodup_cons] at h
      by_cases hr : r.filename = fn
      · simp only [deleteFirst, hr, if_true]
        rw [findOne_eq_none_iff]
        intro x hx hfn
        exact h.1 (hr ▸ hfn ▸ List.mem_map_of_mem Record.filename hx)
      · simp only [deleteFirst, hr, if_false, findOne, if_false]
        exact ih h.2

theorem countFn_eq_zero (s : Store) (fn : String)
    (h : findOne s fn = none) : countFn s fn = 0 := by
  rw [findOne_eq_none_iff] at h
  unfold countFn
  rw [List.countP_eq_zero]
  intro r hr
  simp [h r hr]

theorem countFn_eq_one (s : Store) (fn : String) (r : Record)
    (hnd : keysNodup s) (h : findOne s fn = some r) : countFn s fn = 1 := by
  induction s with
  | nil => simp [findOne] at h
  | cons x xs ih =>
      simp only [keysNodup, keys, List.map_cons, List.nodup_cons] at hnd
      by_cases hx : x.filename = fn
      · have hzero : countFn xs fn = 0 := by
          apply countFn_eq_zero
          rw [findOne_eq_none_iff]
          intro y hy hfn
          exact hnd.1 (hx ▸ hfn ▸ List.mem_map_of_mem Record.filename hy)
        simp [countFn, List.countP_cons, hx] at hzero ⊢
        simpa [countFn] using hzero
      · simp only [findOne, hx, if_false] at h
        have := ih hnd.2 h
        simpa [countFn, List.countP_cons, hx] using this

theorem countFn_le_one (s : Store) (fn : String) (h : keysNodup s) :
    countFn s fn ≤ 1 := by
  cases hf : findOne s fn with
  | none => simp [countFn_eq_zero s fn hf]
  | some r => simp [countFn_eq_one s fn r h hf]

theorem allowed_file_truthy (fn : String) (h : allowed_file fn = true) :
    fileTruthy fn = true := by
  unfold allowed_file at h
  rw [Bool.and_eq_true, decide_eq_true_iff, decide_eq_true_iff] at h
  unfold fileTruthy
  rw [decide_eq_true_iff]
  intro hfn
  subst hfn
  simp [String.data] at h

theorem findOne_none_not_mem_keys (s : Store) (fn : String)
    (h : findOne s fn = none) : fn ∉ keys s := by
  rw [findOne_eq_none_iff] at h
  intro hm
  obtain ⟨r, hr, he⟩ := List.mem_map.1 hm
  exact h r hr he

/-! ## Reads do not write -/

theorem get_image_snd (s : Store) (fn : String) : (get_image s fn).2 = s := by
  unfold get_image
  cases findOne s fn <;> rfl

theorem get_all_snd (s : Store) : (get_all s).2 = s := rfl

theorem get_predictions_snd (det : Detector) (s : Store) (fn : String) :
    (get_predictions det s fn).2 = s := by
  unfold get_predictions
  split
  · rfl
  · split
    · rfl
    · split
      · rfl
      · split
        · rfl
        · rfl

theorem delete_image_snd (s : Store) (fn : String) :
    (delete_image s fn).2 = deleteFirst s fn := by
  unfold delete_image
  split <;> rfl

theorem edit_annotations_snd (s : Store) (fn : String) (a : Option String) :
    (edit_annotations s fn a).2 = s ∨ (edit_annotations s fn a).2 = setAnnFirst s fn a := by
  unfold edit_annotations
  split
  · exact Or.inl rfl
  · split
    · exact Or.inr rfl
    · exact Or.inr rfl

/-! ## Uniqueness of filenames is preserved by every operation -/

theorem keysNodup_append_upload (s : Store) (fn : String) (img : List Char)
    (a : Option String) (hnd : keysNodup s) (h : findOne s fn = none) :
    keysNodup (s ++ [⟨fn, img, a⟩]) := by
  unfold keysNodup keys
  rw [List.map_append]
  refine List.Nodup.append hnd (by simp) ?_
  intro x hx hx'
  simp only [List.map_cons, List.map_nil, List.mem_singleton] at hx'
  subst hx'
  exact findOne_none_not_mem_keys s x h hx

theorem keysNodup_step (det : Detector) (s : Store) (op : Op)
    (h : keysNodup s) : keysNodup (step det s op) := by
  cases op with
  | upload fn d a =>
      show keysNodup (upload_image true s fn d a).2
      unfold upload_image
      rw [if_neg (by simp)]
      cases hg : fileTruthy fn && allowed_file fn with
      | false => simpa using h
      | true =>
          simp only [if_pos rfl]
          cases hf : findOne s fn with
          | some r => simpa using h
          | none =>
              by_cases hl : d.length < 16777216
              · rw [if_pos hl]
                exact keysNodup_append_upload s fn (b64encode d) a h hf
              · rw [if_neg hl]
                exact h
  | delete fn =>
      show keysNodup (delete_image s fn).2
      rw [delete_image_snd]
      exact List.Nodup.sublist ((deleteFirst_sublist s fn).map Record.filename) h
  | edit fn a =>
      show keysNodup (edit_annotations s fn a).2
      rcases edit_annotations_snd s fn a with he | he
      · rw [he]; exact h
      · rw [he]
        show (keys (setAnnFirst s fn a)).Nodup
        rw [keys_setAnnFirst]
        exact h
  | fetch fn =>
      show keysNodup (get_image s fn).2
      rw [get_image_snd]
      exact h
  | fetchAll => exact h
  | predict fn =>
      show keysNodup (get_predictions det s fn).2
      rw [get_predictions_snd]
      exact h

theorem keysNodup_run_aux (det : Detector) (ops : List Op) :
    ∀ s : Store, keysNodup s → keysNodup (ops.foldl (step det) s) := by
  induction ops with
  | nil => intro s hs; exact hs
  | cons op ops ih =>
      intro s hs
      exact ih (step det s op) (keysNodup_step det s op hs)

theorem keysNodup_run (det : Detector) (ops : List Op) :
    keysNodup (run det ops) :=
  keysNodup_run_aux det ops [] (by simp [keysNodup, keys])

/-! ## Upload characterization -/

theorem upload_insert (s : Store) (fn : String) (d : List Byte) (a : Option String)
    (hall : allowed_file fn = true) (hf : findOne s fn = none)
    (hl : d.length < 16777216) :
    upload_image true s fn d a = (UploadResult.uploaded, s ++ [⟨fn, b64encode d, a⟩]) := by
  unfold upload_image
  simp [allowed_file_truthy fn hall, hall, hf, hl]

theorem upload_conflict (s : Store) (fn : String) (d : List Byte) (a : Option String)
    (r : Record) (hall : allowed_file fn = true) (hf : findOne s fn = some r) :
    upload_image true s fn d a = (UploadResult.conflict, s) := by
  unfold upload_image
  simp [allowed_file_truthy fn hall, hall, hf]

theorem upload_tooBig (s : Store) (fn : String) (d : List Byte) (a : Option String)
    (hall : allowed_file fn = true) (hf : findOne s fn = none)
    (hl : ¬ d.length < 16777216) :
    upload_image true s fn d a = (UploadResult.tooBig, s) := by
  unfold upload_image
  simp [allowed_file_truthy fn hall, hall, hf, hl]

theorem upload_invalid (s : Store) (fn : String) (d : List Byte) (a : Option String)
    (hall : allowed_file fn = false) :
    upload_image true s fn d a = (UploadResult.invalid, s) := by
  unfold upload_image
  simp [hall]

/-! ## The confidence filter is a stable strict filter -/

theorem applyMask_zip_filter (names : Int → String) (g : List PredRow) :
    ((applyMask ((g.map fun p => p.conf).map fun sc => decide ((1 / 2 : ℚ) < sc))
        (g.map fun p => truncInt p.cls)).zip
      ((applyMask ((g.map fun p => p.conf).map fun sc => decide ((1 / 2 : ℚ) < sc))
          (g.map fun p => p.conf)).zip
        (applyMask ((g.map fun p => p.conf).map fun sc => decide ((1 / 2 : ℚ) < sc))
          (g.map fun p => ([p.x1, p.y1, p.x2, p.y2] : List ℚ))))).map
      (fun lsb => (⟨names lsb.1, lsb.2.1, lsb.2.2⟩ : Ann))
    = (g.filter fun p => decide ((1 / 2 : ℚ) < p.conf)).map (mkAnn names) := by
  induction g with
  | nil => rfl
  | cons p g ih =>
      by_cases hp : (1 / 2 : ℚ) < p.conf
      · simp only [List.map_cons, applyMask, hp, decide_True, if_true, List.zip_cons_cons,
          List.filter_cons, mkAnn, ih]
      · simp only [List.map_cons, applyMask, decide_eq_false hp, Bool.false_eq_true,
          if_false, List.filter_cons, ih]

/-- The per-group computation is exactly a stable strict filter at 1/2
followed by annotation construction. -/
theorem processGroup_eq_filter (names : Int → String) (g : List PredRow) :
    processGroup names g
      = (g.filter fun p => decide ((1 / 2 : ℚ) < p.conf)).map (mkAnn names) :=
  applyMask_zip_filter names g

/-! ## The extension check -/

theorem takeWhile_append_dot (xs ys : List Char) (h : ∀ x ∈ xs, x ≠ '.') :
    (xs ++ '.' :: ys).takeWhile (fun c => decide (c ≠ '.')) = xs := by
  induction xs with
  | nil => simp [List.takeWhile_cons]
  | cons x xs ih =>
      have hx : x ≠ '.' := h x (by simp)
      simp only [List.cons_append, List.takeWhile_cons, decide_eq_true hx, if_true]
      rw [ih (fun y hy => h y (by simp [hy]))]

theorem dropWhile_mem_dot (rl : List Char) (h : '.' ∈ rl) :
    ∃ t, rl.dropWhile (fun c => decide (c ≠ '.')) = '.' :: t := by
  induction rl with
  | nil => simp at h
  | cons a as ih =>
      by_cases ha : a = '.'
      · subst ha
        exact ⟨as, by simp [List.dropWhile_cons]⟩
      · have hmem : '.' ∈ as := by
          rcases List.mem_cons.1 h with h1 | h1
          · exact absurd h1.symm ha
          · exact h1
        obtain ⟨t, ht⟩ := ih hmem
        refine ⟨t, ?_⟩
        rw [List.dropWhile_cons, if_pos (decide_eq_true ha)]
        exact ht

theorem afterLastDot_decomp (pre ext : List Char) (h : '.' ∉ ext) :
    afterLastDot (pre ++ '.' :: ext) = ext := by
  unfold afterLastDot
  rw [List.reverse_append, List.reverse_cons, List.append_assoc, List.singleton_append,
    takeWhile_append_dot _ _ (fun x hx he => h (he ▸ List.mem_reverse.1 hx)),
    List.reverse_reverse]

theorem exists_decomp (l : List Char) (h : '.' ∈ l) :
    ∃ pre, l = pre ++ '.' :: afterLastDot l ∧ '.' ∉ afterLastDot l := by
  obtain ⟨t, ht⟩ := dropWhile_mem_dot l.reverse (List.mem_reverse.2 h)
  refine ⟨t.reverse, ?_, ?_⟩
  · have hsplit : l.reverse = l.reverse.takeWhile (fun c => decide (c ≠ '.')) ++ '.' :: t := by
      rw [← ht, List.takeWhile_append_dropWhile]
    calc l = l.reverse.reverse := (List.reverse_reverse l).symm
      _ = (l.reverse.takeWhile (fun c => decide (c ≠ '.')) ++ '.' :: t).reverse := by
          rw [← hsplit]
      _ = ('.' :: t).reverse ++ (l.reverse.takeWhile (fun c => decide (c ≠ '.'))).reverse := by
          rw [List.reverse_append]
      _ = t.reverse ++ '.' :: afterLastDot l := by
          rw [List.reverse_cons, List.append_assoc, List.singleton_append]
          rfl
  · intro hc
    have := List.mem_takeWhile_imp (List.mem_reverse.1 hc)
    simp at this

/-- The check `allowed_file` accepts exactly the filenames containing a dot
whose lowercased last-dot suffix is an allowed extension. -/
theorem allowed_file_iff (fn : String) :
    allowed_file fn = true ↔
      ∃ pre ext, fn.data = pre ++ '.' :: ext ∧ '.' ∉ ext ∧
        ext.map Char.toLower ∈ allowedExtensions := by
  unfold allowed_file
  rw [Bool.and_eq_true, decide_eq_true_iff, decide_eq_true_iff]
  constructor
  · rintro ⟨hdot, hext⟩
    obtain ⟨pre, hdec, hnot⟩ := exists_decomp fn.data hdot
    exact ⟨pre, afterLastDot fn.data, hdec, hnot, hext⟩
  · rintro ⟨pre, ext, hdec, hnot, hmem⟩
    refine ⟨by rw [hdec]; simp, ?_⟩
    rw [hdec, afterLastDot_decomp pre ext hnot]
    exact hmem

/-! ## Claims -/

/-- Claim C1: the claim says an unknown filename makes GET /get-image and
GET /get-predictions fail with a 404 not-found error rather than any other
outcome.  The code instead subscripts the `None` returned by `find_one`
before its own not-found branch (`db_entry['image']` at lines 134 and 210),
so both handlers raise an uncaught `TypeError`: on every store without the
filename the outcome is a crash, and the 404 branches are unreachable. -/
theorem c1_missing_filename_crashes (det : Detector) (s : Store) (fn : String)
    (h : findOne s fn = none) :
    get_image s fn = (GetResult.crash, s)
    ∧ get_predictions det s fn = (PredResult.crash, s) := by
  constructor
  · unfold get_image
    rw [h]
  · unfold get_predictions
    rw [h]

theorem c1_missing_filename_crashes_witness :
    get_image [] "missing.png" = (GetResult.crash, [])
    ∧ get_predictions trivialDetector [] "missing.png" = (PredResult.crash, []) :=
  c1_missing_filename_crashes trivialDetector [] "missing.png" rfl

/-- Claim C2: the pipeline filters each detection group independently and
stably, keeping exactly the entries with confidence strictly above 1/2,
maps each surviving class index to its label through the detector
vocabulary, and emits one list of annotations per input group; for
confidences 9/10, 2/5, 1/2, 51/100 exactly the 9/10 and 51/100 entries
survive, in that order. -/
theorem c2_confidence_filter :
    (∀ (names : Int → String) (groups : List (List PredRow)),
      groups.map (processGroup names)
        = groups.map (fun g =>
            (g.filter fun p => decide ((1 / 2 : ℚ) < p.conf)).map (mkAnn names)))
    ∧ [([⟨0, 0, 1, 1, 9/10, 0⟩, ⟨0, 0, 1, 1, 2/5, 1⟩, ⟨0, 0, 1, 1, 1/2, 2⟩,
          ⟨0, 0, 1, 1, 51/100, 3⟩] : List PredRow)].map
        (processGroup (fun i => if i = 0 then "person" else if i = 3 then "tie" else "other"))
      = [[⟨"person", 9/10, [0, 0, 1, 1]⟩, ⟨"tie", 51/100, [0, 0, 1, 1]⟩]] := by
  constructor
  · intro names groups
    have hfun : processGroup names = fun g =>
        (g.filter fun p => decide ((1 / 2 : ℚ) < p.conf)).map (mkAnn names) :=
      funext (processGroup_eq_filter names)
    rw [hfun]
  · have h1 : ((1/2 : ℚ) < 9/10) := by norm_num
    have h2 : ¬((1/2 : ℚ) < 2/5) := by norm_num
    have h3 : ¬((1/2 : ℚ) < 1/2) := by norm_num
    have h4 : ((1/2 : ℚ) < 51/100) := by norm_num
    have t0 : truncInt (0 : ℚ) = 0 := by decide
    have t3 : truncInt (3 : ℚ) = 3 := by decide
    rw [List.map_cons, List.map_nil, processGroup_eq_filter]
    simp only [List.filter_cons, List.filter_nil, decide_eq_true h1, decide_eq_false h2,
      decide_eq_false h3, decide_eq_true h4, Bool.false_eq_true, if_true, if_false,
      List.map_cons, List.map_nil, mkAnn, t0, t3]
    norm_num

/-- Claim C3: base64 decoding inverts base64 encoding on every byte
sequence, and uploading payload B under an allowed unused filename with
annotations "[]" then fetching that filename returns the same filename, the
same annotations, and an image field that decodes back to exactly B. -/
theorem c3_roundtrip :
    (∀ B : List Byte, b64decode (b64encode B) = some B)
    ∧ (∀ (s : Store) (fn : String) (B : List Byte),
        allowed_file fn = true → findOne s fn = none → B.length < 16777216 →
          (upload_image true s fn B (some "[]")).1 = UploadResult.uploaded
          ∧ (get_image (upload_image true s fn B (some "[]")).2 fn).1
              = GetResult.ok fn (some "[]") (b64encode B)
          ∧ b64decode (b64encode B) = some B) := by
  refine ⟨b64_roundtrip, ?_⟩
  intro s fn B hall hf hl
  rw [upload_insert s fn B (some "[]") hall hf hl]
  refine ⟨rfl, ?_, b64_roundtrip B⟩
  show (get_image (s ++ [⟨fn, b64encode B, some "[]"⟩]) fn).1
      = GetResult.ok fn (some "[]") (b64encode B)
  unfold get_image
  rw [findOne_append_none s _ fn hf]
  simp [findOne]

theorem c3_roundtrip_witness :
    (upload_image true [] "cat.png" [104, 105] (some "[]")).1 = UploadResult.uploaded
    ∧ (get_image (upload_image true [] "cat.png" [104, 105] (some "[]")).2 "cat.png").1
        = GetResult.ok "cat.png" (some "[]") (b64encode [104, 105])
    ∧ b64decode (b64encode [104, 105]) = some [104, 105] :=
  c3_roundtrip.2 [] "cat.png" [104, 105] (by decide) rfl (by decide)

/-- Claim C4: for an allowed, previously unused filename the upload is
rejected as too big exactly when the payload has at least 16777216 bytes,
and accepted and inserted exactly when it has fewer. -/
theorem c4_size_limit (s : Store) (fn : String) (d : List Byte) (a : Option String)
    (hall : allowed_file fn = true) (hf : findOne s fn = none) :
    ((upload_image true s fn d a).1 = UploadResult.tooBig ↔ 16777216 ≤ d.length)
    ∧ ((upload_image true s fn d a).1 = UploadResult.uploaded ↔ d.length < 16777216)
    ∧ (d.length < 16777216 →
        (upload_image true s fn d a).2 = s ++ [⟨fn, b64encode d, a⟩])
    ∧ (16777216 ≤ d.length → (upload_image true s fn d a).2 = s) := by
  by_cases hl : d.length < 16777216
  · rw [upload_insert s fn d a hall hf hl]
    exact ⟨⟨fun hx => (nomatch hx), fun hx => absurd hx (by omega)⟩,
      ⟨fun _ => hl, fun _ => rfl⟩, fun _ => rfl, fun hx => absurd hx (by omega)⟩
  · rw [upload_tooBig s fn d a hall hf hl]
    exact ⟨⟨fun _ => by omega, fun _ => rfl⟩,
      ⟨fun hx => (nomatch hx), fun hx => absurd hx hl⟩,
      fun hx => absurd hx hl, fun _ => rfl⟩

theorem c4_size_limit_witness :
    (upload_image true [] "a.png" (List.replicate 16777216 (0 : Byte)) none).1
        = UploadResult.tooBig
    ∧ (upload_image true [] "a.png" (List.replicate 16777215 (0 : Byte)) none).1
        = UploadResult.uploaded := by
  constructor
  · exact (c4_size_limit [] "a.png" (List.replicate 16777216 (0 : Byte)) none
      (by decide) rfl).1.mpr (List.length_replicate 16777216 (0 : Byte)).symm.le
  · exact (c4_size_limit [] "a.png" (List.replicate 16777215 (0 : Byte)) none
      (by decide) rfl).2.1.mpr
      (by rw [List.length_replicate]; omega)

/-- Claim C5: filename uniqueness is an invariant: after any sequence of
requests served from the empty store at most one live record exists per
filename, and uploading a filename that already has a record fails with a
conflict and leaves the store, and its single record for that filename,
unchanged. -/
theorem c5_unique_filenames :
    (∀ (det : Detector) (ops : List Op) (fn : String), countFn (run det ops) fn ≤ 1)
    ∧ (∀ (s : Store) (fn : String) (d : List Byte) (a : Option String) (r : Record),
        keysNodup s → allowed_file fn = true → findOne s fn = some r →
          (upload_image true s fn d a).1 = UploadResult.conflict
          ∧ (upload_image true s fn d a).2 = s
          ∧ countFn (upload_image true s fn d a).2 fn = 1) := by
  constructor
  · intro det ops fn
    exact countFn_le_one _ fn (keysNodup_run det ops)
  · intro s fn d a r hnd hall hf
    rw [upload_conflict s fn d a r hall hf]
    exact ⟨rfl, rfl, countFn_eq_one s fn r hnd hf⟩

theorem c5_unique_filenames_witness :
    countFn (run trivialDetector
      [Op.upload "a.png" [0] none, Op.upload "a.png" [1] none]) "a.png" ≤ 1
    ∧ (upload_image true [⟨"a.png", [], none⟩] "a.png" [0] none).1
        = UploadResult.conflict := by
  constructor
  · exact c5_unique_filenames.1 trivialDetector
      [Op.upload "a.png" [0] none, Op.upload "a.png" [1] none] "a.png"
  · exact (c5_unique_filenames.2 [⟨"a.png", [], none⟩] "a.png" [0] none
      ⟨"a.png", [], none⟩ (by decide) (by decide) (by decide)).1

/-- Claim C6 counterexample: the claim says the edit fails with not-found if
and only if no record with the filename exists.  After uploading "a.png",
editing it with annotations equal to the stored value leaves
`modified_count` at 0, and the handler returns its 404 branch even though
the record exists. -/
theorem c6_counterexample :
    (findOne (upload_image true [] "a.png" [0] (some "x")).2 "a.png").isSome = true
    ∧ (edit_annotations (upload_image true [] "a.png" [0] (some "x")).2 "a.png"
        (some "x")).1 = EditResult.notFound := by
  constructor
  · decide
  · decide

/-- Claim C6 (amended): editing an existing record whose stored annotations
differ from the new value succeeds and fully replaces them; editing a
nonexistent filename returns not-found; and editing an existing record with
a value equal to the stored one also returns not-found (Mongo's
`modified_count` counts only actual modifications) and leaves the store
unchanged. -/
theorem c6_edit_replaces (s : Store) (fn : String) (a : Option String) :
    (findOne s fn = none → edit_annotations s fn a = (EditResult.notFound, s))
    ∧ (∀ r, findOne s fn = some r → r.annotations ≠ a →
        (edit_annotations s fn a).1 = EditResult.ok
        ∧ findOne (edit_annotations s fn a).2 fn = some { r with annotations := a })
    ∧ (∀ r, findOne s fn = some r → r.annotations = a →
        (edit_annotations s fn a).1 = EditResult.notFound
        ∧ (edit_annotations s fn a).2 = s) := by
  refine ⟨?_, ?_, ?_⟩
  · intro h
    unfold edit_annotations
    rw [h]
  · intro r h hne
    unfold edit_annotations
    rw [h]
    constructor
    · show (if r.annotations = a then (EditResult.notFound, setAnnFirst s fn a)
            else (EditResult.ok, setAnnFirst s fn a)).1 = EditResult.ok
      rw [if_neg hne]
    · show findOne (if r.annotations = a then (EditResult.notFound, setAnnFirst s fn a)
            else (EditResult.ok, setAnnFirst s fn a)).2 fn
          = some { r with annotations := a }
      rw [if_neg hne, findOne_setAnnFirst, h]
      rfl
  · intro r h heq
    subst heq
    unfold edit_annotations
    rw [h]
    constructor
    · show (if r.annotations = r.annotations
              then (EditResult.notFound, setAnnFirst s fn r.annotations)
            else (EditResult.ok, setAnnFirst s fn r.annotations)).1 = EditResult.notFound
      rw [if_pos rfl]
    · show (if r.annotations = r.annotations
              then (EditResult.notFound, setAnnFirst s fn r.annotations)
            else (EditResult.ok, setAnnFirst s fn r.annotations)).2 = s
      rw [if_pos rfl]
      exact setAnnFirst_self s fn r h

theorem c6_edit_replaces_witness :
    (edit_annotations [⟨"a.png", [], some "x"⟩] "a.png" (some "y")).1 = EditResult.ok
    ∧ findOne (edit_annotations [⟨"a.png", [], some "x"⟩] "a.png" (some "y")).2 "a.png"
        = some ⟨"a.png", [], some "y"⟩
    ∧ edit_annotations [] "nope.png" (some "y") = (EditResult.notFound, []) := by
  refine ⟨?_, ?_, ?_⟩
  · exact ((c6_edit_replaces [⟨"a.png", [], some "x"⟩] "a.png" (some "y")).2.1
      ⟨"a.png", [], some "x"⟩ (by decide) (by decide)).1
  · exact ((c6_edit_replaces [⟨"a.png", [], some "x"⟩] "a.png" (some "y")).2.1
      ⟨"a.png", [], some "x"⟩ (by decide) (by decide)).2
  · exact (c6_edit_replaces [] "nope.png" (some "y")).1 rfl

/-- Claim C7: the claim says a stored record whose payload is not a valid
image makes the prediction operation fail with a reported decode error, not
a crash.  The code has no such branch: `cv2.imdecode` yields `None` on
undecodable bytes and the unconditional `model(img)` call then raises, so
the handler crashes. -/
theorem c7_predict_crashes_on_undecodable (det : Detector) (s : Store) (fn : String)
    (r : Record) (bytes : List Byte)
    (h1 : findOne s fn = some r) (h2 : b64decode r.image = some bytes)
    (h3 : bytes ≠ []) (h4 : det.imdecode bytes = none) :
    get_predictions det s fn = (PredResult.crash, s) := by
  unfold get_predictions
  rw [h1]
  show (match b64decode r.image with
        | none => (PredResult.crash, s)
        | some bytes =>
            if bytes = [] then (PredResult.notFound, s)
            else
              match det.imdecode bytes with
              | none => (PredResult.crash, s)
              | some img =>
                  (PredResult.ok ((det.run img).map (processGroup det.names)), s))
      = (PredResult.crash, s)
  rw [h2]
  show (if bytes = [] then (PredResult.notFound, s)
        else
          match det.imdecode bytes with
          | none => (PredResult.crash, s)
          | some img => (PredResult.ok ((det.run img).map (processGroup det.names)), s))
      = (PredResult.crash, s)
  rw [if_neg h3]
  rw [h4]

theorem c7_predict_crashes_on_undecodable_witness :
    get_predictions trivialDetector [⟨"a.png", b64encode [0], none⟩] "a.png"
      = (PredResult.crash, [⟨"a.png", b64encode [0], none⟩]) :=
  c7_predict_crashes_on_undecodable trivialDetector [⟨"a.png", b64encode [0], none⟩]
    "a.png" ⟨"a.png", b64encode [0], none⟩ [0] (by decide) (by decide) (by decide) rfl

/-- Claim C8: deleting an existing filename succeeds and removes its record;
deleting a filename with no record returns not-found and leaves the store
completely unchanged. -/
theorem c8_delete (s : Store) (fn : String) :
    (findOne s fn = none → delete_image s fn = (DeleteResult.notFound, s))
    ∧ (∀ r, findOne s fn = some r →
        (delete_image s fn).1 = DeleteResult.ok
        ∧ (delete_image s fn).2 = deleteFirst s fn
        ∧ (delete_image s fn).2.length + 1 = s.length
        ∧ (keysNodup s → findOne (delete_image s fn).2 fn = none)) := by
  constructor
  · intro h
    unfold delete_image
    rw [deleteFirst_of_none s fn h, h]
    rfl
  · intro r h
    unfold delete_image
    rw [h]
    refine ⟨rfl, rfl, ?_, ?_⟩
    · show (deleteFirst s fn).length + 1 = s.length
      exact deleteFirst_length s fn r h
    · intro hnd
      show findOne (deleteFirst s fn) fn = none
      exact findOne_deleteFirst_of_nodup s fn hnd

theorem c8_delete_witness :
    delete_image [] "ghost.png" = (DeleteResult.notFound, [])
    ∧ (delete_image [⟨"a.png", [], none⟩] "a.png").1 = DeleteResult.ok := by
  constructor
  · exact (c8_delete [] "ghost.png").1 rfl
  · exact ((c8_delete [⟨"a.png", [], none⟩] "a.png").2 ⟨"a.png", [], none⟩ (by decide)).1

/-- Claim C9: the read operations never mutate the store: fetching one
record, listing all records, and predicting leave every stored record
unchanged; the pipeline output is returned, never written back. -/
theorem c9_reads_pure (det : Detector) (s : Store) (fn : String) :
    (get_image s fn).2 = s ∧ (get_all s).2 = s ∧ (get_predictions det s fn).2 = s :=
  ⟨get_image_snd s fn, get_all_snd s, get_predictions_snd det s fn⟩

/-- Claim C10: the extension check accepts a filename exactly when it
contains a dot and the lowercased substring after its last dot is one of
png, jpg, jpeg, gif; it is case-insensitive ("CAT.PNG" passes) while the
filename key itself is matched case-sensitively; a filename without a dot
is rejected with the invalid-request error. -/
theorem c10_extension_check (fn : String) :
    (allowed_file fn = true ↔
      ∃ pre ext, fn.data = pre ++ '.' :: ext ∧ '.' ∉ ext ∧
        ext.map Char.toLower ∈ allowedExtensions)
    ∧ allowed_file "CAT.PNG" = true
    ∧ (∀ (s : Store) (d : List Byte) (a : Option String), '.' ∉ fn.data →
        upload_image true s fn d a = (UploadResult.invalid, s))
    ∧ findOne [⟨"cat.png", [], none⟩] "CAT.PNG" = none := by
  refine ⟨allowed_file_iff fn, by decide, ?_, by decide⟩
  intro s d a hdot
  apply upload_invalid
  unfold allowed_file
  simp [hdot]

theorem c10_extension_check_witness :
    upload_image true [] "nodot" [] none = (UploadResult.invalid, [])
    ∧ allowed_file "CAT.PNG" = true :=
  ⟨(c10_extension_check "nodot").2.2.1 [] [] none (by decide),
    (c10_extension_check "CAT.PNG").2.1⟩
